import Mathlib

/-!
Verification of the tabular parsing / write-back layer of the DND war
dashboard (src/app.py): cell values, column-name normalisation, header
search, the two sheet-to-table extractors, the key-matched write-back,
and the event append.  Python cell values are modelled by an explicit
scalar type; worksheets by a 1-indexed grid with reported extents.
-/

namespace WarDash

/-- A scalar spreadsheet cell value as seen by the Python layer:
absence (None), a string, an integer, or a boolean. -/
inductive Cell where
  | none
  | str (s : String)
  | int (n : Int)
  | bool (b : Bool)
deriving DecidableEq, Repr

/-- Python `v is None`. -/
def Cell.isNone : Cell → Bool
  | Cell.none => true
  | _ => false

/-- Python truthiness of a cell value (`bool(v)`): None, "", 0 and False
are falsy, everything else truthy. -/
def Cell.truthy : Cell → Bool
  | Cell.none => false
  | Cell.str s => !(s == "")
  | Cell.int n => !(n == 0)
  | Cell.bool b => b

/-- Python `str(v)`. -/
def Cell.pyStr : Cell → String
  | Cell.none => "None"
  | Cell.str s => s
  | Cell.int n => toString n
  | Cell.bool b => if b then "True" else "False"

/-- Whitespace characters removed by Python str.strip (ASCII range). -/
def isSpaceChar (c : Char) : Bool :=
  c == ' ' || c == '\t' || c == '\n' || c == '\r' || c == '\x0b' || c == '\x0c'

/-- Python str.strip: drop whitespace from both ends. -/
def pyStrip (s : String) : String :=
  String.mk (((s.data.dropWhile isSpaceChar).reverse.dropWhile isSpaceChar).reverse)

/-- ASCII lower-casing of one character, as Python str.lower does on ASCII. -/
def lowerChar (c : Char) : Char :=
  if 65 ≤ c.toNat ∧ c.toNat ≤ 90 then Char.ofNat (c.toNat + 32) else c

/-- Python str.lower (ASCII range). -/
def pyLower (s : String) : String :=
  String.mk (s.data.map lowerChar)

/-- Helper: a string, or absence when it is empty. -/
def strOrNone (s : String) : Option String :=
  if s = "" then Option.none else some s

/-- First pass of make_unique_columns (src/app.py line 94):
`str(c).strip() if (c is not None and str(c).strip() != "") else None`. -/
def normCell (c : Cell) : Option String :=
  match c with
  | Cell.none => Option.none
  | c => strOrNone (pyStrip c.pyStr)

/-- Second pass (line 95): replace a missing name at 0-based position i by
`Col(i+1)`.  The first argument is the running 0-based index. -/
def fillCols : Nat → List (Option String) → List String
  | _, [] => []
  | i, c :: rest =>
    (match c with
     | some s => s
     | Option.none => "Col" ++ toString (i + 1)) :: fillCols (i + 1) rest

/-- Deduplication loop (lines 96-104).  `seen` is the dict mapping a name
to its current duplicate counter. -/
def dedupeCols : List String → (String → Option Nat) → List String
  | [], _ => []
  | c :: rest, seen =>
    match seen c with
    | Option.none => c :: dedupeCols rest (fun x => if x = c then some 0 else seen x)
    | some k =>
      (c ++ " (" ++ toString (k + 1) ++ ")") ::
        dedupeCols rest (fun x => if x = c then some (k + 1) else seen x)

/-- make_unique_columns (src/app.py lines 88-105). -/
def make_unique_columns (cols : List Cell) : List String :=
  dedupeCols (fillCols 0 (cols.map normCell)) (fun _ => Option.none)

example : make_unique_columns [Cell.str "A", Cell.str "A", Cell.str " B "] =
    ["A", "A (1)", "B"] := by decide

example : make_unique_columns [Cell.str "A", Cell.str "A (1)", Cell.str "A"] =
    ["A", "A (1)", "A (1)"] := by decide

/-! Basic lemmas about the normaliser. -/

theorem dedupeCols_length (l : List String) :
    ∀ seen, (dedupeCols l seen).length = l.length := by
  induction l with
  | nil => intro seen; rfl
  | cons c rest ih =>
    intro seen
    cases h : seen c with
    | none => simp [dedupeCols, h, ih]
    | some k => simp [dedupeCols, h, ih]

theorem fillCols_length (l : List (Option String)) :
    ∀ i, (fillCols i l).length = l.length := by
  induction l with
  | nil => intro i; rfl
  | cons c rest ih => intro i; simp [fillCols, ih]

theorem strOrNone_ne_empty (t s : String) (h : strOrNone t = some s) :
    s ≠ "" := by
  unfold strOrNone at h
  split at h
  · exact Option.noConfusion h
  · next hne =>
    injection h with h2
    subst h2
    exact hne

theorem normCell_ne_empty (c : Cell) (s : String) (h : normCell c = some s) :
    s ≠ "" := by
  cases c with
  | none => simp [normCell] at h
  | str v => exact strOrNone_ne_empty _ _ h
  | int n => exact strOrNone_ne_empty _ _ h
  | bool b => exact strOrNone_ne_empty _ _ h

theorem append_ne_empty (a b : String) (ha : a ≠ "") : a ++ b ≠ "" := by
  intro h
  apply ha
  have h2 := congrArg String.data h
  rw [String.data_append] at h2
  have h3 : a.data ++ b.data = [] := h2
  exact String.ext (List.append_eq_nil.mp h3).1

theorem colName_ne_empty (i : Nat) : ("Col" ++ toString (i + 1)) ≠ "" := by
  apply append_ne_empty
  decide

theorem fillCols_mem_ne_empty (l : List (Option String)) :
    ∀ i s, s ∈ fillCols i l → (∀ t, some t ∈ l → t ≠ "") → s ≠ "" := by
  induction l with
  | nil => intro i s hs _; simp [fillCols] at hs
  | cons c rest ih =>
    intro i s hs hl
    simp only [fillCols, List.mem_cons] at hs
    rcases hs with hs | hs
    · subst hs
      cases c with
      | some t => exact hl t (List.mem_cons_self _ _)
      | none => exact colName_ne_empty i
    · exact ih (i + 1) s hs (fun t ht => hl t (List.mem_cons_of_mem _ ht))

theorem dedupeCols_mem_ne_empty (l : List String) :
    ∀ seen s, s ∈ dedupeCols l seen → (∀ t ∈ l, t ≠ "") → s ≠ "" := by
  induction l with
  | nil => intro seen s hs _; simp [dedupeCols] at hs
  | cons c rest ih =>
    intro seen s hs hl
    cases hsc : seen c with
    | none =>
      simp only [dedupeCols, hsc, List.mem_cons] at hs
      rcases hs with hs | hs
      · rw [hs]; exact hl c (List.mem_cons_self _ _)
      · exact ih _ s hs (fun t ht => hl t (List.mem_cons_of_mem _ ht))
    | some k =>
      simp only [dedupeCols, hsc, List.mem_cons] at hs
      rcases hs with hs | hs
      · rw [hs]
        apply append_ne_empty
        apply append_ne_empty
        apply append_ne_empty
        exact hl c (List.mem_cons_self _ _)
      · exact ih _ s hs (fun t ht => hl t (List.mem_cons_of_mem _ ht))

/-- Claim C1 counterexample: the output of make_unique_columns is not always
duplicate-free.  On the raw headers A, "A (1)", A the second A is renamed to
"A (1)", which collides with the verbatim second input. -/
theorem make_unique_columns_collision :
    ¬ (make_unique_columns
        [Cell.str "A", Cell.str "A (1)", Cell.str "A"]).Nodup := by
  decide

/-- Claim C1 (amended): make_unique_columns always returns a list of the same
length as its input in which every element is a non-empty string; pairwise
distinctness, however, can fail when an input header already carries a
parenthesised counter suffix that a renamed duplicate also receives. -/
theorem make_unique_columns_length_nonempty (cols : List Cell) :
    (make_unique_columns cols).length = cols.length ∧
    ∀ s ∈ make_unique_columns cols, s ≠ "" := by
  constructor
  · unfold make_unique_columns
    rw [dedupeCols_length, fillCols_length, List.length_map]
  · intro s hs
    apply dedupeCols_mem_ne_empty _ _ _ hs
    intro t ht
    apply fillCols_mem_ne_empty _ _ _ ht
    intro u hu
    rcases List.mem_map.mp hu with ⟨c, _, hceq⟩
    exact normCell_ne_empty c u hceq

/-- Instantiation of the amended C1 statement at a concrete header list. -/
theorem make_unique_columns_length_nonempty_witness :
    (make_unique_columns [Cell.str "A", Cell.str "A"]).length =
      ([Cell.str "A", Cell.str "A"] : List Cell).length ∧
    "A" ≠ "" := by
  refine ⟨(make_unique_columns_length_nonempty [Cell.str "A", Cell.str "A"]).1, ?_⟩
  exact (make_unique_columns_length_nonempty [Cell.str "A", Cell.str "A"]).2 "A" (by decide)

/-- Claim C2 counterexample: make_unique_columns is not idempotent.  Its
output on A, "A (1)", A contains a duplicate, so the second application
renames again and the results differ. -/
theorem make_unique_columns_not_idempotent :
    make_unique_columns
        ((make_unique_columns
            [Cell.str "A", Cell.str "A (1)", Cell.str "A"]).map Cell.str) ≠
      make_unique_columns [Cell.str "A", Cell.str "A (1)", Cell.str "A"] := by
  decide

theorem dedupeCols_nodup_noop (H : List String) :
    ∀ seen : String → Option Nat, H.Nodup →
      (∀ s ∈ H, seen s = Option.none) → dedupeCols H seen = H := by
  induction H with
  | nil => intro seen _ _; rfl
  | cons c rest ih =>
    intro seen hnd hseen
    have hc : seen c = Option.none := hseen c (List.mem_cons_self _ _)
    simp only [dedupeCols, hc]
    congr 1
    apply ih _ (List.Nodup.of_cons hnd)
    intro s hs
    have hne : s ≠ c := by
      intro h
      subst h
      exact (List.nodup_cons.mp hnd).1 hs
    simp only [hne, if_false]
    exact hseen s (List.mem_cons_of_mem _ hs)

theorem fillCols_map_some (H : List String) :
    ∀ i, fillCols i (H.map some) = H := by
  induction H with
  | nil => intro i; rfl
  | cons c rest ih => intro i; simp [fillCols, ih]

/-- Claim C2 (amended): re-normalising a list of already-stripped, non-empty,
pairwise-distinct column names is a no-op; in particular make_unique_columns
is idempotent exactly when its first pass produced such a list, which fails
only in the counter-suffix collision case. -/
theorem make_unique_columns_noop (H : List String)
    (h1 : ∀ s ∈ H, pyStrip s = s) (h2 : ∀ s ∈ H, s ≠ "") (h3 : H.Nodup) :
    make_unique_columns (H.map Cell.str) = H := by
  unfold make_unique_columns
  have hmap : (H.map Cell.str).map normCell = H.map some := by
    rw [List.map_map]
    apply List.map_congr_left
    intro s hs
    show normCell (Cell.str s) = some s
    simp only [normCell, Cell.pyStr, h1 s hs, strOrNone]
    rw [if_neg (h2 s hs)]
  rw [hmap, fillCols_map_some]
  exact dedupeCols_nodup_noop H _ h3 (fun _ _ => rfl)

/-- Instantiation of the amended C2 statement at a concrete header list. -/
theorem make_unique_columns_noop_witness :
    make_unique_columns (["A", "B"].map Cell.str) = ["A", "B"] :=
  make_unique_columns_noop ["A", "B"]
    (by intro s hs; fin_cases hs <;> decide)
    (by intro s hs; fin_cases hs <;> decide)
    (by decide)

/-! ### Worksheets and the two extractors -/

/-- A worksheet: a 1-indexed grid of cells with the reported row and
column extents of openpyxl (`max_row`, `max_column`). -/
structure Sheet where
  maxRow : Nat
  maxCol : Nat
  cell : Nat → Nat → Cell

/-- The values of row r across columns 1..max_column, as the list
comprehensions in src/app.py read them. -/
def readRow (ws : Sheet) (r : Nat) : List Cell :=
  (List.range' 1 ws.maxCol).map (fun c => ws.cell r c)

/-- `all(v is None for v in row)` over columns 1..max_column. -/
def isBlankRow (ws : Sheet) (r : Nat) : Bool :=
  (readRow ws r).all (fun v => v.isNone)

/-- Python `any(row)` over the row values (truthiness, not absence). -/
def rowTruthy (row : List Cell) : Bool :=
  row.any Cell.truthy

/-- One row of the loop in find_header_row (src/app.py lines 82-85):
`isinstance(v, str) and v.strip().lower() == key.lower()`. -/
def rowMatchesKey (ws : Sheet) (key : String) (r : Nat) : Bool :=
  match ws.cell r 1 with
  | Cell.str v => pyLower (pyStrip v) == pyLower key
  | _ => false

/-- The scan of find_header_row, starting at row r with n rows to go. -/
def findHeaderFrom (ws : Sheet) (key : String) : Nat → Nat → Option Nat
  | _, 0 => Option.none
  | r, Nat.succ n =>
    if rowMatchesKey ws key r then some r else findHeaderFrom ws key (r + 1) n

/-- find_header_row (src/app.py lines 78-86), for a present worksheet:
scan column A over rows 1..max_row for the key, first match wins. -/
def find_header_row (ws : Sheet) (key : String) : Option Nat :=
  findHeaderFrom ws key 1 ws.maxRow

/-- Result of the two extractors: a column list and the record rows, or
the error string returned in the second tuple slot. -/
inductive ExtractResult where
  | ok (columns : List String) (rows : List (List Cell))
  | err (msg : String)
deriving DecidableEq, Repr

/-- Record-collection loop of sheet_to_dataframe_by_key (lines 119-124):
append each row, break at the first fully absent row. -/
def collectRows (ws : Sheet) : List Nat → List (List Cell)
  | [] => []
  | r :: rest =>
    if isBlankRow ws r then [] else readRow ws r :: collectRows ws rest

/-- sheet_to_dataframe_by_key (src/app.py lines 107-127). -/
def sheet_to_dataframe_by_key (ws : Option Sheet) (header_key : String) :
    ExtractResult :=
  match ws with
  | Option.none => ExtractResult.err "Worksheet not found."
  | some ws =>
    match find_header_row ws header_key with
    | Option.none =>
      ExtractResult.err
        ("Header row not found (looking for \x27" ++ header_key ++
          "\x27 in column A).")
    | some h =>
      ExtractResult.ok (make_unique_columns (readRow ws h))
        (collectRows ws (List.range' (h + 1) (ws.maxRow - h)))

/-- Record-collection loop of sheet_to_dataframe_first_row (lines 137-142):
skip rows with no truthy value, keep scanning to max_row. -/
def skipBlankRows (ws : Sheet) : List Nat → List (List Cell)
  | [] => []
  | r :: rest =>
    if rowTruthy (readRow ws r) then readRow ws r :: skipBlankRows ws rest
    else skipBlankRows ws rest

/-- sheet_to_dataframe_first_row (src/app.py lines 129-144). -/
def sheet_to_dataframe_first_row (ws : Option Sheet) : ExtractResult :=
  match ws with
  | Option.none => ExtractResult.err "Worksheet not found."
  | some ws =>
    ExtractResult.ok (make_unique_columns (readRow ws 1))
      (skipBlankRows ws (List.range' 2 (ws.maxRow - 1)))

/-- The Territories layout of the spec scenario: header at row 2, one data
row at row 3, a blank row 4, and further data at row 5. -/
def terrSheet : Sheet where
  maxRow := 5
  maxCol := 2
  cell := fun r c =>
    match r, c with
    | 1, 1 => Cell.str "Campaign"
    | 2, 1 => Cell.str "RegionName"
    | 2, 2 => Cell.str "TerritoryState"
    | 3, 1 => Cell.str "Ashvale"
    | 3, 2 => Cell.str "Controlled"
    | 5, 1 => Cell.str "Ghostwood"
    | 5, 2 => Cell.str "Lost"
    | _, _ => Cell.none

example : find_header_row terrSheet "RegionName" = some 2 := by decide

example : sheet_to_dataframe_by_key (some terrSheet) "RegionName" =
    ExtractResult.ok ["RegionName", "TerritoryState"]
      [[Cell.str "Ashvale", Cell.str "Controlled"]] := by decide

theorem collectRows_eq_takeWhile (ws : Sheet) (l : List Nat) :
    collectRows ws l =
      (l.takeWhile (fun r => !(isBlankRow ws r))).map (readRow ws) := by
  induction l with
  | nil => rfl
  | cons r rest ih =>
    by_cases hb : isBlankRow ws r = true
    · simp [collectRows, hb, List.takeWhile_cons]
    · simp only [Bool.not_eq_true] at hb
      simp [collectRows, hb, List.takeWhile_cons, ih]

theorem takeWhile_range_lt (p : Nat → Bool) :
    ∀ (n s b : Nat), b ∈ List.range' s n → p b = false →
      ∀ r ∈ (List.range' s n).takeWhile p, r < b := by
  intro n
  induction n with
  | zero => intro s b hb _ r hr; simp at hb
  | succ n ih =>
    intro s b hb hpb r hr
    rw [List.range'_succ] at hb hr
    by_cases hps : p s = true
    · rw [List.takeWhile_cons_of_pos hps] at hr
      have hbs : b ≠ s := by
        intro h; subst h; rw [hps] at hpb; cases hpb
      have hbmem : b ∈ List.range' (s + 1) n := by
        rcases List.mem_cons.mp hb with h | h
        · exact absurd h hbs
        · exact h
      have hsb : s < b := by
        have := (List.mem_range'_1.mp hbmem).1
        omega
      rcases List.mem_cons.mp hr with hr1 | hr2
      · subst hr1; exact hsb
      · exact ih (s + 1) b hbmem hpb r hr2
    · rw [List.takeWhile_cons_of_neg hps] at hr
      simp at hr

/-- Claim C3: sheet_to_dataframe_by_key reads records from the row after the
located header row and stops at the first fully absent row: the record list
is exactly the map of readRow over the longest non-blank prefix of rows
header+1..max_row, and every scanned row index lies strictly before any
blank row of that range, so nothing at or past the first blank row is
returned even when non-blank data exists further down. -/
theorem sheet_to_dataframe_by_key_stops (ws : Sheet) (key : String) (h : Nat)
    (hh : find_header_row ws key = some h) :
    sheet_to_dataframe_by_key (some ws) key =
      ExtractResult.ok (make_unique_columns (readRow ws h))
        (((List.range' (h + 1) (ws.maxRow - h)).takeWhile
            (fun r => !(isBlankRow ws r))).map (readRow ws)) ∧
    ∀ b, b ∈ List.range' (h + 1) (ws.maxRow - h) → isBlankRow ws b = true →
      ∀ r, r ∈ (List.range' (h + 1) (ws.maxRow - h)).takeWhile
          (fun x => !(isBlankRow ws x)) → r < b := by
  constructor
  · simp [sheet_to_dataframe_by_key, hh, collectRows_eq_takeWhile]
  · intro b hb hbb r hr
    exact takeWhile_range_lt _ _ _ _ hb (by simp [hbb]) r hr

/-- Instantiation of C3 on the spec scenario sheet: the header is found at
row 2 and exactly the single Ashvale record from row 3 is returned; the
Ghostwood data at row 5 is unreachable behind the blank row 4. -/
theorem sheet_to_dataframe_by_key_stops_witness :
    find_header_row terrSheet "RegionName" = some 2 ∧
    sheet_to_dataframe_by_key (some terrSheet) "RegionName" =
      ExtractResult.ok ["RegionName", "TerritoryState"]
        [[Cell.str "Ashvale", Cell.str "Controlled"]] := by
  constructor
  · decide
  · have h :=
      (sheet_to_dataframe_by_key_stops terrSheet "RegionName" 2 (by decide)).1
    rw [h]
    decide

theorem skipBlankRows_eq_filter (ws : Sheet) (l : List Nat) :
    skipBlankRows ws l =
      (l.filter (fun r => rowTruthy (readRow ws r))).map (readRow ws) := by
  induction l with
  | nil => rfl
  | cons r rest ih =>
    by_cases hb : rowTruthy (readRow ws r) = true
    · simp [skipBlankRows, hb, List.filter_cons, ih]
    · simp only [Bool.not_eq_true] at hb
      simp [skipBlankRows, hb, List.filter_cons, ih]

/-- Claim C4 (amended): sheet_to_dataframe_first_row treats row 1 as the
header and scans every row 2..max_row; a row is omitted exactly when none of
its values is Python-truthy (so a row holding only 0, empty strings or False
is dropped as well, not only fully absent rows), and scanning continues past
omitted rows to max_row, so non-blank rows after a blank row are returned. -/
theorem sheet_to_dataframe_first_row_filter (ws : Sheet) :
    sheet_to_dataframe_first_row (some ws) =
      ExtractResult.ok (make_unique_columns (readRow ws 1))
        (((List.range' 2 (ws.maxRow - 1)).filter
            (fun r => rowTruthy (readRow ws r))).map (readRow ws)) := by
  simp [sheet_to_dataframe_first_row, skipBlankRows_eq_filter]

/-- A sheet whose row 2 holds the integer 0 (not absent, but falsy) and
whose row 3 holds data after it. -/
def zeroRowSheet : Sheet where
  maxRow := 3
  maxCol := 1
  cell := fun r c =>
    match r, c with
    | 1, 1 => Cell.str "H"
    | 2, 1 => Cell.int 0
    | 3, 1 => Cell.str "x"
    | _, _ => Cell.none

/-- Claim C4 counterexample: row 2 of zeroRowSheet is not fully blank (it
holds the integer 0), yet sheet_to_dataframe_first_row omits it — the code
tests Python truthiness, not absence.  Row 3 past it is still returned. -/
theorem sheet_to_dataframe_first_row_zero_row :
    (readRow zeroRowSheet 2).all Cell.isNone = false ∧
    sheet_to_dataframe_first_row (some zeroRowSheet) =
      ExtractResult.ok ["H"] [[Cell.str "x"]] := by
  decide

theorem findHeaderFrom_some (ws : Sheet) (key : String) :
    ∀ n s r, findHeaderFrom ws key s n = some r →
      s ≤ r ∧ r < s + n ∧ rowMatchesKey ws key r = true ∧
      ∀ r', s ≤ r' → r' < r → rowMatchesKey ws key r' = false := by
  intro n
  induction n with
  | zero => intro s r h; simp [findHeaderFrom] at h
  | succ n ih =>
    intro s r h
    simp only [findHeaderFrom] at h
    by_cases hm : rowMatchesKey ws key s = true
    · rw [if_pos hm] at h
      injection h with h2
      subst h2
      exact ⟨Nat.le_refl _, by omega, hm, fun r' h1 h2 => by omega⟩
    · rw [if_neg hm] at h
      obtain ⟨h1, h2, h3, h4⟩ := ih (s + 1) r h
      refine ⟨by omega, by omega, h3, ?_⟩
      intro r' hr1 hr2
      by_cases he : r' = s
      · subst he
        revert hm
        cases rowMatchesKey ws key r' <;> simp
      · exact h4 r' (by omega) hr2

theorem findHeaderFrom_none (ws : Sheet) (key : String) :
    ∀ n s, findHeaderFrom ws key s n = Option.none →
      ∀ r, s ≤ r → r < s + n → rowMatchesKey ws key r = false := by
  intro n
  induction n with
  | zero => intro s _ r h1 h2; omega
  | succ n ih =>
    intro s h r hr1 hr2
    simp only [findHeaderFrom] at h
    by_cases hm : rowMatchesKey ws key s = true
    · rw [if_pos hm] at h; exact Option.noConfusion h
    · rw [if_neg hm] at h
      by_cases he : r = s
      · subst he
        revert hm
        cases rowMatchesKey ws key r <;> simp
      · exact ih (s + 1) h r (by omega) (by omega)

/-- Claim C6: find_header_row scans column 1 over rows 1..max_row and
returns the smallest row whose cell is a string that, stripped and
lower-cased, equals the lower-cased sentinel (first match wins); when no
row matches, sheet_to_dataframe_by_key fails with the header-not-found
error whose message carries the attempted sentinel, returning no records. -/
theorem find_header_row_spec (ws : Sheet) (key : String) :
    (∀ r, find_header_row ws key = some r →
        1 ≤ r ∧ r ≤ ws.maxRow ∧ rowMatchesKey ws key r = true ∧
        ∀ r', 1 ≤ r' → r' < r → rowMatchesKey ws key r' = false) ∧
    (find_header_row ws key = Option.none →
        (∀ r, 1 ≤ r → r ≤ ws.maxRow → rowMatchesKey ws key r = false) ∧
        sheet_to_dataframe_by_key (some ws) key =
          ExtractResult.err
            ("Header row not found (looking for \x27" ++ key ++
              "\x27 in column A).")) := by
  constructor
  · intro r h
    obtain ⟨h1, h2, h3, h4⟩ := findHeaderFrom_some ws key ws.maxRow 1 r h
    exact ⟨h1, by omega, h3, h4⟩
  · intro h
    refine ⟨fun r hr1 hr2 =>
      findHeaderFrom_none ws key ws.maxRow 1 h r hr1 (by omega), ?_⟩
    simp [sheet_to_dataframe_by_key, find_header_row] at h ⊢
    rw [h]

/-- A sheet whose column A never matches the sentinel. -/
def noHeaderSheet : Sheet where
  maxRow := 2
  maxCol := 2
  cell := fun r c =>
    match r, c with
    | 1, 1 => Cell.str "Alpha"
    | 2, 1 => Cell.str "Beta"
    | _, _ => Cell.none

/-- Instantiation of C6: on terrSheet the match at row 2 is the first one,
and on noHeaderSheet the extractor reports the sentinel-carrying error. -/
theorem find_header_row_spec_witness :
    (1 ≤ 2 ∧ 2 ≤ terrSheet.maxRow ∧
      rowMatchesKey terrSheet "RegionName" 2 = true ∧
      ∀ r', 1 ≤ r' → r' < 2 → rowMatchesKey terrSheet "RegionName" r' = false) ∧
    ((∀ r, 1 ≤ r → r ≤ noHeaderSheet.maxRow →
        rowMatchesKey noHeaderSheet "RegionName" r = false) ∧
      sheet_to_dataframe_by_key (some noHeaderSheet) "RegionName" =
        ExtractResult.err
          ("Header row not found (looking for \x27" ++ "RegionName" ++
            "\x27 in column A).")) := by
  constructor
  · exact (find_header_row_spec terrSheet "RegionName").1 2 (by decide)
  · exact (find_header_row_spec noHeaderSheet "RegionName").2 (by decide)

/-! ### Key-matched write-back (Territories apply-changes handler) -/

/-- Assigning a cell value; openpyxl extends the reported extents when the
target lies past them. -/
def Sheet.setCell (ws : Sheet) (r c : Nat) (v : Cell) : Sheet where
  maxRow := max ws.maxRow r
  maxCol := max ws.maxCol c
  cell := fun r' c' => if r' = r ∧ c' = c then v else ws.cell r' c'

/-- `start_row = h2 + 1 if h2 else 2` (src/app.py line 262). -/
def terrStart (ws : Sheet) : Nat :=
  match find_header_row ws "RegionName" with
  | some h => h + 1
  | Option.none => 2

/-- The name_to_row loop body (lines 264-271): walk the given row numbers,
break at the first fully absent row, record truthy first-column keys
stringified, later rows overwriting earlier ones. -/
def buildNameToRow (ws : Sheet) (m : String → Option Nat) :
    List Nat → (String → Option Nat)
  | [] => m
  | r :: rest =>
    if isBlankRow ws r then m
    else
      if (ws.cell r 1).truthy then
        buildNameToRow ws
          (fun x => if x = (ws.cell r 1).pyStr then some r else m x) rest
      else buildNameToRow ws m rest

/-- The finished RegionName-to-row mapping built from the sheet. -/
def name_to_row (ws : Sheet) : String → Option Nat :=
  buildNameToRow ws (fun _ => Option.none)
    (List.range' (terrStart ws) (ws.maxRow + 1 - terrStart ws))

/-- `row.get("RegionName")` on an edited record laid out positionally under
the edited table's column names; a missing column yields absence. -/
def rowGet (cols : List String) (row : List Cell) (name : String) : Cell :=
  match cols.indexOf? name with
  | some i => row.getD i Cell.none
  | Option.none => Cell.none

/-- Inner write loop (lines 277-278): `for c_idx, col_name in
enumerate(edited.columns, start=1): ws.cell(row=r, column=c_idx).value =
row[col_name]`.  The first Nat argument is the 0-based running index. -/
def writeRecordGo (r : Nat) (row : List Cell) :
    Sheet → Nat → List String → Sheet
  | ws, _, [] => ws
  | ws, i, _ :: restCols =>
    writeRecordGo r row (ws.setCell r (i + 1) (row.getD i Cell.none)) (i + 1)
      restCols

/-- Write one edited record into sheet row r, in the edited table's own
column order. -/
def writeRecord (ws : Sheet) (r : Nat) (cols : List String)
    (row : List Cell) : Sheet :=
  writeRecordGo r row ws 0 cols

/-- One iteration of the write loop (lines 273-278): look the record's
stringified RegionName up in the pre-built mapping and overwrite the found
row, or leave the sheet alone when the key is missing. -/
def applyStep (m : String → Option Nat) (cols : List String) (acc : Sheet)
    (row : List Cell) : Sheet :=
  match m ((rowGet cols row "RegionName").pyStr) with
  | some r => writeRecord acc r cols row
  | Option.none => acc

/-- The apply-changes write-back (src/app.py lines 258-278): build the
key-to-row mapping from the original sheet, then fold the write loop over
the edited records. -/
def applyEdits (ws : Sheet) (cols : List String)
    (records : List (List Cell)) : Sheet :=
  records.foldl (applyStep (name_to_row ws) cols) ws

example :
    (applyEdits terrSheet ["RegionName", "TerritoryState"]
        [[Cell.str "Ashvale", Cell.str "Besieged"]]).cell 3 2 =
      Cell.str "Besieged" := by decide

example :
    (applyEdits terrSheet ["RegionName", "TerritoryState"]
        [[Cell.str "Ghostwood", Cell.str "Held"]]).cell 5 2 =
      Cell.str "Lost" := by decide

theorem buildNameToRow_some_mem (ws : Sheet) :
    ∀ (l : List Nat) (m : String → Option Nat) (nm : String) (r : Nat),
      buildNameToRow ws m l nm = some r → m nm = some r ∨ r ∈ l := by
  intro l
  induction l with
  | nil => intro m nm r h; exact Or.inl h
  | cons x rest ih =>
    intro m nm r h
    simp only [buildNameToRow] at h
    by_cases hb : isBlankRow ws x = true
    · rw [if_pos hb] at h; exact Or.inl h
    · rw [if_neg hb] at h
      by_cases ht : (ws.cell x 1).truthy = true
      · rw [if_pos ht] at h
        rcases ih _ nm r h with h2 | h2
        · by_cases he : nm = (ws.cell x 1).pyStr
          · rw [if_pos he] at h2
            injection h2 with h3
            exact Or.inr (h3 ▸ List.mem_cons_self x rest)
          · rw [if_neg he] at h2
            exact Or.inl h2
        · exact Or.inr (List.mem_cons_of_mem _ h2)
      · rw [if_neg ht] at h
        rcases ih _ nm r h with h2 | h2
        · exact Or.inl h2
        · exact Or.inr (List.mem_cons_of_mem _ h2)

theorem name_to_row_le_maxRow (ws : Sheet) (nm : String) (r : Nat)
    (h : name_to_row ws nm = some r) : r ≤ ws.maxRow := by
  rcases buildNameToRow_some_mem ws _ _ nm r h with h2 | h2
  · exact Option.noConfusion h2
  · obtain ⟨hlo, hhi⟩ := List.mem_range'_1.mp h2
    omega

theorem writeRecordGo_maxRow (r : Nat) (row : List Cell) :
    ∀ (colsL : List String) (ws : Sheet) (i : Nat), r ≤ ws.maxRow →
      (writeRecordGo r row ws i colsL).maxRow = ws.maxRow := by
  intro colsL
  induction colsL with
  | nil => intro ws i _; rfl
  | cons cc rest ih =>
    intro ws i h
    simp only [writeRecordGo]
    have hset : (ws.setCell r (i + 1) (row.getD i Cell.none)).maxRow =
        ws.maxRow := Nat.max_eq_left h
    rw [ih _ (i + 1) (by rw [hset]; exact h), hset]

theorem writeRecordGo_cell_other (r : Nat) (row : List Cell) :
    ∀ (colsL : List String) (ws : Sheet) (i : Nat) (r' c' : Nat),
      (r' ≠ r ∨ c' ≤ i ∨ i + colsL.length < c') →
      (writeRecordGo r row ws i colsL).cell r' c' = ws.cell r' c' := by
  intro colsL
  induction colsL with
  | nil => intro ws i r' c' _; rfl
  | cons cc rest ih =>
    intro ws i r' c' hc
    simp only [writeRecordGo]
    have hrec : r' ≠ r ∨ c' ≤ i + 1 ∨ (i + 1) + rest.length < c' := by
      rcases hc with h | h | h
      · exact Or.inl h
      · exact Or.inr (Or.inl (by omega))
      · simp only [List.length_cons] at h
        exact Or.inr (Or.inr (by omega))
    rw [ih _ (i + 1) r' c' hrec]
    simp only [Sheet.setCell]
    have hne : ¬(r' = r ∧ c' = i + 1) := by
      rcases hc with h | h | h
      · intro hh; exact h hh.1
      · intro hh; omega
      · simp only [List.length_cons] at h
        intro hh; omega
    rw [if_neg hne]

theorem writeRecordGo_cell_at (r : Nat) (row : List Cell) :
    ∀ (colsL : List String) (ws : Sheet) (i j : Nat), j < colsL.length →
      (writeRecordGo r row ws i colsL).cell r (i + j + 1) =
        row.getD (i + j) Cell.none := by
  intro colsL
  induction colsL with
  | nil => intro ws i j hj; simp at hj
  | cons cc rest ih =>
    intro ws i j hj
    simp only [writeRecordGo]
    cases j with
    | zero =>
      rw [writeRecordGo_cell_other r row rest _ (i + 1) r (i + 0 + 1)
        (Or.inr (Or.inl (by omega)))]
      simp [Sheet.setCell]
    | succ j' =>
      have h1 : i + (j' + 1) + 1 = (i + 1) + j' + 1 := by omega
      have h2 : i + (j' + 1) = (i + 1) + j' := by omega
      rw [h1, h2]
      apply ih _ (i + 1) j'
      simp only [List.length_cons] at hj
      omega

theorem foldl_applyStep_maxRow (m : String → Option Nat) (cols : List String)
    (N : Nat) (hm : ∀ nm r, m nm = some r → r ≤ N) :
    ∀ (records : List (List Cell)) (acc : Sheet), acc.maxRow = N →
      (records.foldl (applyStep m cols) acc).maxRow = N := by
  intro records
  induction records with
  | nil => intro acc h; exact h
  | cons row rest ih =>
    intro acc h
    rw [List.foldl_cons]
    apply ih
    unfold applyStep
    cases hr : m ((rowGet cols row "RegionName").pyStr) with
    | none => exact h
    | some r =>
      unfold writeRecord
      rw [writeRecordGo_maxRow r row cols acc 0 (by rw [h]; exact hm _ r hr)]
      exact h

theorem foldl_applyStep_untouched (m : String → Option Nat)
    (cols : List String) (r' c' : Nat) :
    ∀ (records : List (List Cell)) (acc : Sheet),
      (∀ row ∈ records, m ((rowGet cols row "RegionName").pyStr) ≠ some r') →
      (records.foldl (applyStep m cols) acc).cell r' c' = acc.cell r' c' := by
  intro records
  induction records with
  | nil => intro acc _; rfl
  | cons row rest ih =>
    intro acc hmiss
    rw [List.foldl_cons,
      ih _ (fun q hq => hmiss q (List.mem_cons_of_mem _ hq))]
    unfold applyStep
    cases hr : m ((rowGet cols row "RegionName").pyStr) with
    | none => rfl
    | some r =>
      unfold writeRecord
      apply writeRecordGo_cell_other
      left
      intro hrr
      exact hmiss row (List.mem_cons_self _ _) (by rw [← hrr] at hr; exact hr)

/-- Claim C5: in the key-matched write-back, an edited record whose
stringified key is absent from the sheet mapping is silently dropped —
appending such a record to the edit set leaves the resulting sheet
unchanged — no cell of a row outside the mapped rows of the edit set is
ever written, and the sheet's reported row count never grows. -/
theorem applyEdits_missing_key (ws : Sheet) (cols : List String)
    (records : List (List Cell)) :
    (applyEdits ws cols records).maxRow = ws.maxRow ∧
    (∀ row, name_to_row ws ((rowGet cols row "RegionName").pyStr) =
        Option.none →
      applyEdits ws cols (records ++ [row]) = applyEdits ws cols records) ∧
    (∀ r' c',
      (∀ row ∈ records,
        name_to_row ws ((rowGet cols row "RegionName").pyStr) ≠ some r') →
      (applyEdits ws cols records).cell r' c' = ws.cell r' c') := by
  refine ⟨?_, ?_, ?_⟩
  · exact foldl_applyStep_maxRow (name_to_row ws) cols ws.maxRow
      (name_to_row_le_maxRow ws) records ws rfl
  · intro row h
    unfold applyEdits
    rw [List.foldl_append, List.foldl_cons, List.foldl_nil]
    unfold applyStep
    rw [h]
  · intro r' c' h
    exact foldl_applyStep_untouched (name_to_row ws) cols r' c' records ws h

/-- Instantiation of C5 on the scenario sheet: the Ghostwood record's key is
behind the blank row, so it is absent from the mapping; appending it changes
nothing, row 5 keeps its old value, and the row count is preserved. -/
theorem applyEdits_missing_key_witness :
    (applyEdits terrSheet ["RegionName", "TerritoryState"] []).maxRow =
      terrSheet.maxRow ∧
    applyEdits terrSheet ["RegionName", "TerritoryState"]
        ([] ++ [[Cell.str "Ghostwood", Cell.str "Held"]]) =
      applyEdits terrSheet ["RegionName", "TerritoryState"] [] ∧
    (applyEdits terrSheet ["RegionName", "TerritoryState"] []).cell 5 2 =
      terrSheet.cell 5 2 := by
  obtain ⟨h1, h2, h3⟩ :=
    applyEdits_missing_key terrSheet ["RegionName", "TerritoryState"] []
  exact ⟨h1, h2 [Cell.str "Ghostwood", Cell.str "Held"] (by decide),
    h3 5 2 (by intro row hrow; simp at hrow)⟩

/-! ### Characterising the key-to-row mapping (duplicates, falsy keys) -/

/-- The row numbers the name_to_row loop actually visits: the longest
non-blank prefix of start_row..max_row. -/
def scannedRows (ws : Sheet) : List Nat :=
  (List.range' (terrStart ws) (ws.maxRow + 1 - terrStart ws)).takeWhile
    (fun r => !(isBlankRow ws r))

/-- Row r carries the (truthy) key that stringifies to nm. -/
def keyMatches (ws : Sheet) (r : Nat) (nm : String) : Prop :=
  (ws.cell r 1).truthy = true ∧ (ws.cell r 1).pyStr = nm

/-- The recording part of the name_to_row loop, with the blank-row break
already applied to the visited list. -/
def recordKeys (ws : Sheet) (m : String → Option Nat) :
    List Nat → (String → Option Nat)
  | [] => m
  | r :: rest =>
    if (ws.cell r 1).truthy then
      recordKeys ws
        (fun x => if x = (ws.cell r 1).pyStr then some r else m x) rest
    else recordKeys ws m rest

theorem buildNameToRow_eq_recordKeys (ws : Sheet) :
    ∀ (l : List Nat) (m : String → Option Nat),
      buildNameToRow ws m l =
        recordKeys ws m (l.takeWhile (fun r => !(isBlankRow ws r))) := by
  intro l
  induction l with
  | nil => intro m; rfl
  | cons x rest ih =>
    intro m
    by_cases hb : isBlankRow ws x = true
    · simp [buildNameToRow, hb, List.takeWhile_cons, recordKeys]
    · simp only [Bool.not_eq_true] at hb
      by_cases ht : (ws.cell x 1).truthy = true
      · simp [buildNameToRow, hb, ht, List.takeWhile_cons, recordKeys, ih]
      · simp only [Bool.not_eq_true] at ht
        simp [buildNameToRow, hb, ht, List.takeWhile_cons, recordKeys, ih]

theorem pairwise_lt_range (s n : Nat) :
    (List.range' s n).Pairwise (· < ·) := by
  induction n generalizing s with
  | zero => exact List.Pairwise.nil
  | succ n ih =>
    rw [List.range'_succ]
    refine List.Pairwise.cons ?_ (ih (s + 1))
    intro y hy
    have := (List.mem_range'_1.mp hy).1
    omega

theorem scannedRows_pairwise (ws : Sheet) :
    (scannedRows ws).Pairwise (· < ·) :=
  (pairwise_lt_range _ _).sublist (List.takeWhile_sublist _)

theorem recordKeys_some_iff (ws : Sheet) :
    ∀ (L : List Nat) (m : String → Option Nat) (nm : String) (r : Nat),
      L.Pairwise (· < ·) →
      (recordKeys ws m L nm = some r ↔
        ((r ∈ L ∧ keyMatches ws r nm ∧
            ∀ r' ∈ L, keyMatches ws r' nm → r' ≤ r) ∨
          (m nm = some r ∧ ∀ r' ∈ L, ¬ keyMatches ws r' nm))) := by
  intro L
  induction L with
  | nil =>
    intro m nm r _
    simp [recordKeys]
  | cons x rest ih =>
    intro m nm r hp
    obtain ⟨hhead, htail⟩ := List.pairwise_cons.mp hp
    by_cases ht : (ws.cell x 1).truthy = true
    · by_cases he : (ws.cell x 1).pyStr = nm
      · -- x carries the key nm
        have hkx : keyMatches ws x nm := ⟨ht, he⟩
        rw [recordKeys, if_pos ht, ih _ nm r htail]
        constructor
        · rintro (⟨hmem, hkr, hmax⟩ | ⟨hup, hnone⟩)
          · refine Or.inl ⟨List.mem_cons_of_mem _ hmem, hkr, ?_⟩
            intro r' hr' hkr'
            rcases List.mem_cons.mp hr' with h | h
            · subst h
              exact Nat.le_of_lt (Nat.lt_of_lt_of_le (hhead r hmem) (Nat.le_refl r))
            · exact hmax r' h hkr'
          · rw [if_pos (by rw [he])] at hup
            injection hup with hxr
            refine Or.inl ⟨hxr ▸ List.mem_cons_self x rest, hxr ▸ hkx, ?_⟩
            intro r' hr' hkr'
            rcases List.mem_cons.mp hr' with h | h
            · omega
            · exact absurd hkr' (hnone r' h)
        · rintro (⟨hmem, hkr, hmax⟩ | ⟨hm, hnone⟩)
          · rcases List.mem_cons.mp hmem with h | h
            · subst h
              refine Or.inr ⟨by rw [if_pos (by rw [he])], ?_⟩
              intro r' hr' hkr'
              have := hmax r' (List.mem_cons_of_mem _ hr') hkr'
              have := hhead r' hr'
              omega
            · exact Or.inl ⟨h, hkr, fun r' hr' hkr' => hmax r' (List.mem_cons_of_mem _ hr') hkr'⟩
          · exact absurd hkx (hnone x (List.mem_cons_self _ _))
      · -- x is truthy but carries a different key
        have hnx : ¬ keyMatches ws x nm := fun hk => he hk.2
        rw [recordKeys, if_pos ht, ih _ nm r htail]
        have hup : (if nm = (ws.cell x 1).pyStr then some x else m nm) = m nm := by
          rw [if_neg (fun h => he h.symm)]
        rw [hup]
        constructor
        · rintro (⟨hmem, hkr, hmax⟩ | ⟨hm, hnone⟩)
          · refine Or.inl ⟨List.mem_cons_of_mem _ hmem, hkr, ?_⟩
            intro r' hr' hkr'
            rcases List.mem_cons.mp hr' with h | h
            · exact absurd (h ▸ hkr') hnx
            · exact hmax r' h hkr'
          · refine Or.inr ⟨hm, ?_⟩
            intro r' hr'
            rcases List.mem_cons.mp hr' with h | h
            · exact h ▸ hnx
            · exact hnone r' h
        · rintro (⟨hmem, hkr, hmax⟩ | ⟨hm, hnone⟩)
          · rcases List.mem_cons.mp hmem with h | h
            · exact absurd (h ▸ hkr) hnx
            · exact Or.inl ⟨h, hkr, fun r' hr' hkr' => hmax r' (List.mem_cons_of_mem _ hr') hkr'⟩
          · exact Or.inr ⟨hm, fun r' hr' => hnone r' (List.mem_cons_of_mem _ hr')⟩
    · -- falsy key cell: the row is skipped
      have hnx : ¬ keyMatches ws x nm := fun hk => ht hk.1
      rw [recordKeys, if_neg ht, ih _ nm r htail]
      constructor
      · rintro (⟨hmem, hkr, hmax⟩ | ⟨hm, hnone⟩)
        · refine Or.inl ⟨List.mem_cons_of_mem _ hmem, hkr, ?_⟩
          intro r' hr' hkr'
          rcases List.mem_cons.mp hr' with h | h
          · exact absurd (h ▸ hkr') hnx
          · exact hmax r' h hkr'
        · refine Or.inr ⟨hm, ?_⟩
          intro r' hr'
          rcases List.mem_cons.mp hr' with h | h
          · exact h ▸ hnx
          · exact hnone r' h
      · rintro (⟨hmem, hkr, hmax⟩ | ⟨hm, hnone⟩)
        · rcases List.mem_cons.mp hmem with h | h
          · exact absurd (h ▸ hkr) hnx
          · exact Or.inl ⟨h, hkr, fun r' hr' hkr' => hmax r' (List.mem_cons_of_mem _ hr') hkr'⟩
        · exact Or.inr ⟨hm, fun r' hr' => hnone r' (List.mem_cons_of_mem _ hr')⟩

/-- Claim C10: the key-to-row mapping visits the rows after the header up to
the first fully blank row, skips rows with a falsy first-column key, and on
duplicated keys keeps the largest matching row number; applying a single
edited record therefore writes only to that last matching row, leaving every
other row (in particular earlier duplicates) unchanged. -/
theorem name_to_row_spec (ws : Sheet) :
    (∀ nm r, name_to_row ws nm = some r ↔
      (r ∈ scannedRows ws ∧ keyMatches ws r nm ∧
        ∀ r' ∈ scannedRows ws, keyMatches ws r' nm → r' ≤ r)) ∧
    (∀ cols row r,
      name_to_row ws ((rowGet cols row "RegionName").pyStr) = some r →
      ∀ r' c', r' ≠ r →
        (applyEdits ws cols [row]).cell r' c' = ws.cell r' c') := by
  constructor
  · intro nm r
    unfold name_to_row
    rw [buildNameToRow_eq_recordKeys]
    have hsc :
        (List.range' (terrStart ws)
            (ws.maxRow + 1 - terrStart ws)).takeWhile
          (fun r => !(isBlankRow ws r)) = scannedRows ws := rfl
    rw [hsc, recordKeys_some_iff ws _ _ nm r (scannedRows_pairwise ws)]
    constructor
    · rintro (h | ⟨h, _⟩)
      · exact h
      · exact Option.noConfusion h
    · exact Or.inl
  · intro cols row r hfound r' c' hne
    unfold applyEdits
    rw [List.foldl_cons, List.foldl_nil]
    unfold applyStep
    rw [hfound]
    unfold writeRecord
    exact writeRecordGo_cell_other r row cols ws 0 r' c' (Or.inl hne)

/-- A Territories sheet with a duplicated RegionName on rows 2 and 3. -/
def dupSheet : Sheet where
  maxRow := 3
  maxCol := 2
  cell := fun r c =>
    match r, c with
    | 1, 1 => Cell.str "RegionName"
    | 1, 2 => Cell.str "TerritoryState"
    | 2, 1 => Cell.str "Ashvale"
    | 2, 2 => Cell.str "Controlled"
    | 3, 1 => Cell.str "Ashvale"
    | 3, 2 => Cell.str "Lost"
    | _, _ => Cell.none

/-- Instantiation of C10 on dupSheet: the duplicated key Ashvale maps to the
larger row 3, and editing under that key leaves row 2 untouched. -/
theorem name_to_row_spec_witness :
    (3 ∈ scannedRows dupSheet ∧ keyMatches dupSheet 3 "Ashvale" ∧
      ∀ r' ∈ scannedRows dupSheet, keyMatches dupSheet r' "Ashvale" →
        r' ≤ 3) ∧
    (applyEdits dupSheet ["RegionName", "TerritoryState"]
        [[Cell.str "Ashvale", Cell.str "Razed"]]).cell 2 2 =
      dupSheet.cell 2 2 := by
  constructor
  · exact ((name_to_row_spec dupSheet).1 "Ashvale" 3).mp (by decide)
  · exact (name_to_row_spec dupSheet).2 ["RegionName", "TerritoryState"]
      [Cell.str "Ashvale", Cell.str "Razed"] 3 (by decide) 2 2 (by decide)

/-! ### Workbook, sheet lookup, and the TerritoryEvents sheet -/

/-- A workbook: its sheets in order, addressed by name.  openpyxl raises
KeyError on a missing name; get_ws catches that into None. -/
structure Workbook where
  sheets : List (String × Sheet)

/-- get_ws (src/app.py lines 71-76): the sheet of that name, or an absence
signal; total, so it can never raise for a missing name. -/
def get_ws (wb : Workbook) (name : String) : Option Sheet :=
  (wb.sheets.find? (fun p => p.1 == name)).map Prod.snd

/-- Claim C8: get_ws returns the sheet stored under the requested name when
one is present and None exactly when no sheet of that name exists; being a
total function into Option, it signals absence instead of raising. -/
theorem get_ws_spec (wb : Workbook) (name : String) :
    (∀ ws, get_ws wb name = some ws → (name, ws) ∈ wb.sheets) ∧
    (get_ws wb name = Option.none ↔ ∀ p ∈ wb.sheets, p.1 ≠ name) := by
  constructor
  · intro ws h
    unfold get_ws at h
    cases hf : wb.sheets.find? (fun p => p.1 == name) with
    | none => rw [hf] at h; exact Option.noConfusion h
    | some p =>
      rw [hf] at h
      injection h with h2
      have hp : p.1 = name := by simpa using List.find?_some hf
      have hmem := List.mem_of_find?_eq_some hf
      rw [← hp, ← h2]
      exact hmem
  · unfold get_ws
    constructor
    · intro h p hp
      have hf : wb.sheets.find? (fun q => q.1 == name) = Option.none := by
        cases hf : wb.sheets.find? (fun q => q.1 == name) with
        | none => rfl
        | some q => rw [hf] at h; exact Option.noConfusion h
      have := List.find?_eq_none.mp hf p hp
      simpa using this
    · intro h
      have hf : wb.sheets.find? (fun q => q.1 == name) = Option.none :=
        List.find?_eq_none.mpr (fun p hp => by simpa using h p hp)
      rw [hf]
      rfl

/-- A demonstration workbook holding only the Territories sheet. -/
def demoBook : Workbook where
  sheets := [("Territories", terrSheet)]

/-- Instantiation of C8: the present name is found, and the absent name
Recon yields the absence signal rather than an error. -/
theorem get_ws_spec_witness :
    ("Territories", terrSheet) ∈ demoBook.sheets ∧
    (∀ p ∈ demoBook.sheets, p.1 ≠ "Recon") := by
  constructor
  · exact (get_ws_spec demoBook "Territories").1 terrSheet rfl
  · exact (get_ws_spec demoBook "Recon").2.mp rfl

/-- A freshly created openpyxl worksheet: empty grid, reported extents 1. -/
def emptySheet : Sheet where
  maxRow := 1
  maxCol := 1
  cell := fun _ _ => Cell.none

/-- The TerritoryEvents sheet as created by src/app.py lines 445-449: the
four header cells written into row 1 of a fresh sheet. -/
def eventsHeaderSheet : Sheet :=
  (((emptySheet.setCell 1 1 (Cell.str "RegionName")).setCell 1 2
      (Cell.str "EventType")).setCell 1 3 (Cell.str "Value")).setCell 1 4
    (Cell.str "Notes")

/-- Lazy creation of the TerritoryEvents sheet (lines 443-449): append it
with its header when absent, leave the workbook alone when present. -/
def ensureEventsSheet (wb : Workbook) : Workbook :=
  match get_ws wb "TerritoryEvents" with
  | some _ => wb
  | Option.none => ⟨wb.sheets ++ [("TerritoryEvents", eventsHeaderSheet)]⟩

/-- The submit handler append (lines 457-465): compute target_row from the
sheet's current reported max_row, then write the four field values. -/
def appendEvent (ws : Sheet) (region etype value notes : Cell) : Sheet :=
  let target := ws.maxRow + 1
  (((ws.setCell target 1 region).setCell target 2 etype).setCell target 3
      value).setCell target 4 notes

theorem appendEvent_maxRow (ws : Sheet) (a b c d : Cell) :
    (appendEvent ws a b c d).maxRow = ws.maxRow + 1 := by
  simp only [appendEvent, Sheet.setCell]
  omega

theorem appendEvent_cell1 (ws : Sheet) (a b c d : Cell) :
    (appendEvent ws a b c d).cell (ws.maxRow + 1) 1 = a := by
  simp [appendEvent, Sheet.setCell]

theorem appendEvent_cell2 (ws : Sheet) (a b c d : Cell) :
    (appendEvent ws a b c d).cell (ws.maxRow + 1) 2 = b := by
  simp [appendEvent, Sheet.setCell]

theorem appendEvent_cell3 (ws : Sheet) (a b c d : Cell) :
    (appendEvent ws a b c d).cell (ws.maxRow + 1) 3 = c := by
  simp [appendEvent, Sheet.setCell]

theorem appendEvent_cell4 (ws : Sheet) (a b c d : Cell) :
    (appendEvent ws a b c d).cell (ws.maxRow + 1) 4 = d := by
  simp [appendEvent, Sheet.setCell]

theorem find?_append_none {α : Type} (p : α → Bool) :
    ∀ l₁ l₂ : List α, l₁.find? p = Option.none →
      (l₁ ++ l₂).find? p = l₂.find? p := by
  intro l₁ l₂
  induction l₁ with
  | nil => intro _; rfl
  | cons x rest ih =>
    intro h
    rw [List.find?_cons] at h
    cases hp : p x with
    | true => rw [hp] at h; exact Option.noConfusion h
    | false =>
      rw [hp] at h
      rw [List.cons_append, List.find?_cons, hp]
      exact ih h

/-- Claim C9: when TerritoryEvents is absent it is created bearing exactly
the four header cells RegionName, EventType, Value, Notes in row 1 (every
further row-1 cell absent, reported row count 1) before any append; an
append writes its four field values into row reported_max_row + 1 and bumps
the reported row count, so a second append recomputes the target from the
new state and lands one row further down. -/
theorem territoryEvents_spec (wb : Workbook) :
    (get_ws wb "TerritoryEvents" = Option.none →
      get_ws (ensureEventsSheet wb) "TerritoryEvents" =
        some eventsHeaderSheet ∧
      eventsHeaderSheet.maxRow = 1 ∧
      eventsHeaderSheet.cell 1 1 = Cell.str "RegionName" ∧
      eventsHeaderSheet.cell 1 2 = Cell.str "EventType" ∧
      eventsHeaderSheet.cell 1 3 = Cell.str "Value" ∧
      eventsHeaderSheet.cell 1 4 = Cell.str "Notes" ∧
      ∀ c, 5 ≤ c → eventsHeaderSheet.cell 1 c = Cell.none) ∧
    (∀ ws region etype value notes,
      (appendEvent ws region etype value notes).maxRow = ws.maxRow + 1 ∧
      (appendEvent ws region etype value notes).cell (ws.maxRow + 1) 1 =
        region ∧
      (appendEvent ws region etype value notes).cell (ws.maxRow + 1) 2 =
        etype ∧
      (appendEvent ws region etype value notes).cell (ws.maxRow + 1) 3 =
        value ∧
      (appendEvent ws region etype value notes).cell (ws.maxRow + 1) 4 =
        notes) ∧
    (∀ ws r1 e1 v1 n1 r2 e2 v2 n2,
      (appendEvent (appendEvent ws r1 e1 v1 n1) r2 e2 v2 n2).cell
          (ws.maxRow + 2) 1 = r2) := by
  refine ⟨?_, ?_, ?_⟩
  · intro h
    refine ⟨?_, by decide, by decide, by decide, by decide, by decide, ?_⟩
    · have hf : wb.sheets.find? (fun q => q.1 == "TerritoryEvents") =
          Option.none := by
        unfold get_ws at h
        cases hf : wb.sheets.find? (fun q => q.1 == "TerritoryEvents") with
        | none => rfl
        | some q => rw [hf] at h; exact Option.noConfusion h
      unfold ensureEventsSheet
      rw [h]
      unfold get_ws
      simp only
      rw [find?_append_none _ _ _ hf]
      rfl
    · intro c hc
      simp only [eventsHeaderSheet, Sheet.setCell, emptySheet]
      rw [if_neg (by omega), if_neg (by omega), if_neg (by omega),
        if_neg (by omega)]
  · intro ws region etype value notes
    exact ⟨appendEvent_maxRow ws _ _ _ _, appendEvent_cell1 ws _ _ _ _,
      appendEvent_cell2 ws _ _ _ _, appendEvent_cell3 ws _ _ _ _,
      appendEvent_cell4 ws _ _ _ _⟩
  · intro ws r1 e1 v1 n1 r2 e2 v2 n2
    have h2 := appendEvent_cell1 (appendEvent ws r1 e1 v1 n1) r2 e2 v2 n2
    rw [appendEvent_maxRow ws r1 e1 v1 n1] at h2
    exact h2

/-- Instantiation of C9 on demoBook, where TerritoryEvents is absent. -/
theorem territoryEvents_spec_witness :
    get_ws (ensureEventsSheet demoBook) "TerritoryEvents" =
      some eventsHeaderSheet ∧
    eventsHeaderSheet.maxRow = 1 ∧
    eventsHeaderSheet.cell 1 1 = Cell.str "RegionName" ∧
    eventsHeaderSheet.cell 1 2 = Cell.str "EventType" ∧
    eventsHeaderSheet.cell 1 3 = Cell.str "Value" ∧
    eventsHeaderSheet.cell 1 4 = Cell.str "Notes" ∧
    ∀ c, 5 ≤ c → eventsHeaderSheet.cell 1 c = Cell.none :=
  (territoryEvents_spec demoBook).1 rfl

/-! ### Positional table writer (spec section 4.5) -/

/-- Modelled from the spec: the clearing phase of the positional
Table-to-Sheet Writer of spec section 4.5.  The positional writer is used by
the simpler revisions of the app, which are not under src/ — src/app.py only
carries the key-matched variant — so this definition follows the spec's
words: blank every cell of rows lo..hi across all used columns. -/
def clearWindow (ws : Sheet) (lo hi : Nat) : Sheet where
  maxRow := ws.maxRow
  maxCol := ws.maxCol
  cell := fun r c =>
    if lo ≤ r ∧ r ≤ hi ∧ 1 ≤ c ∧ c ≤ ws.maxCol then Cell.none
    else ws.cell r c

/-- Modelled from the spec: the write phase of the positional writer —
each record written into consecutive rows from the start row, one cell per
column in the edited table's own column order. -/
def writeTable (cols : List String) : Sheet → Nat → List (List Cell) → Sheet
  | ws, _, [] => ws
  | ws, r, row :: rest =>
    writeTable cols (writeRecord ws r cols row) (r + 1) rest

/-- Modelled from the spec: the positional Table-to-Sheet Writer (spec
section 4.5, testable property of section 8): re-locate the header row by
sentinel, clear rows header+1 .. header+1+len(table)+9 — the new table
length plus a fixed 10-row safety margin, inclusive — across all used
columns, then write the records; absence of the header yields no write. -/
def positionalWriteBack (ws : Sheet) (key : String) (cols : List String)
    (records : List (List Cell)) : Option Sheet :=
  match find_header_row ws key with
  | Option.none => Option.none
  | some h =>
    some (writeTable cols
      (clearWindow ws (h + 1) (h + 1 + records.length + 9)) (h + 1) records)

theorem writeTable_cell_lt (cols : List String) :
    ∀ (records : List (List Cell)) (ws : Sheet) (R r' c' : Nat), r' < R →
      (writeTable cols ws R records).cell r' c' = ws.cell r' c' := by
  intro records
  induction records with
  | nil => intro ws R r' c' _; rfl
  | cons row rest ih =>
    intro ws R r' c' hl
    simp only [writeTable]
    rw [ih _ (R + 1) r' c' (by omega)]
    exact writeRecordGo_cell_other R row cols ws 0 r' c' (Or.inl (by omega))

theorem writeTable_cell_ge (cols : List String) :
    ∀ (records : List (List Cell)) (ws : Sheet) (R r' c' : Nat),
      R + records.length ≤ r' →
      (writeTable cols ws R records).cell r' c' = ws.cell r' c' := by
  intro records
  induction records with
  | nil => intro ws R r' c' _; rfl
  | cons row rest ih =>
    intro ws R r' c' hge
    simp only [List.length_cons] at hge
    simp only [writeTable]
    rw [ih _ (R + 1) r' c' (by omega)]
    exact writeRecordGo_cell_other R row cols ws 0 r' c' (Or.inl (by omega))

theorem writeTable_cell_colgt (cols : List String) :
    ∀ (records : List (List Cell)) (ws : Sheet) (R r' c' : Nat),
      cols.length < c' →
      (writeTable cols ws R records).cell r' c' = ws.cell r' c' := by
  intro records
  induction records with
  | nil => intro ws R r' c' _; rfl
  | cons row rest ih =>
    intro ws R r' c' hcol
    simp only [writeTable]
    rw [ih _ (R + 1) r' c' hcol]
    exact writeRecordGo_cell_other R row cols ws 0 r' c'
      (Or.inr (Or.inr (by omega)))

theorem writeTable_cell_at (cols : List String) :
    ∀ (records : List (List Cell)) (ws : Sheet) (R i j : Nat),
      i < records.length → j < cols.length →
      (writeTable cols ws R records).cell (R + i) (j + 1) =
        (records.getD i []).getD j Cell.none := by
  intro records
  induction records with
  | nil => intro ws R i j hi _; simp at hi
  | cons row rest ih =>
    intro ws R i j hi hj
    simp only [writeTable]
    cases i with
    | zero =>
      rw [writeTable_cell_lt cols rest _ (R + 1) (R + 0) (j + 1) (by omega)]
      have h := writeRecordGo_cell_at R row cols ws 0 j hj
      simp only [Nat.zero_add] at h
      simp only [Nat.add_zero]
      exact h
    | succ i' =>
      have h1 : R + (i' + 1) = (R + 1) + i' := by omega
      rw [h1]
      have h2 : ((row :: rest).getD (i' + 1) []) = rest.getD i' [] := by
        simp [List.getD]
      rw [h2]
      apply ih _ (R + 1) i' j ?_ hj
      simp only [List.length_cons] at hi
      omega

/-- Claim C7: the positional Table-to-Sheet Writer, given an edited table of
N records placed at row R (the row after the re-located header), first
clears rows R..R+N+9 inclusive across all used columns — exactly a 10-row
margin beyond the new table length — and then writes each record's fields in
the table's own column order: written cells carry the record values, every
other cell of the window is absent afterwards, and rows outside the window
keep their old values (in particular row R+N+10 is not cleared). -/
theorem positionalWriteBack_spec (ws : Sheet) (key : String)
    (cols : List String) (records : List (List Cell)) (h : Nat)
    (hh : find_header_row ws key = some h) :
    ∃ W, positionalWriteBack ws key cols records = some W ∧
      (∀ i j, i < records.length → j < cols.length →
        W.cell (h + 1 + i) (j + 1) = (records.getD i []).getD j Cell.none) ∧
      (∀ r c, h + 1 ≤ r → r ≤ h + 1 + records.length + 9 → 1 ≤ c →
        c ≤ ws.maxCol →
        (h + 1 + records.length ≤ r ∨ cols.length < c) →
        W.cell r c = Cell.none) ∧
      (∀ r c, r < h + 1 ∨ h + 1 + records.length + 9 < r →
        W.cell r c = ws.cell r c) := by
  refine ⟨writeTable cols
      (clearWindow ws (h + 1) (h + 1 + records.length + 9)) (h + 1) records,
    by rw [positionalWriteBack, hh], ?_, ?_, ?_⟩
  · intro i j hi hj
    exact writeTable_cell_at cols records _ (h + 1) i j hi hj
  · intro r c h1 h2 h3 h4 h5
    rcases h5 with h5 | h5
    · rw [writeTable_cell_ge cols records _ (h + 1) r c h5]
      simp only [clearWindow]
      rw [if_pos ⟨h1, h2, h3, h4⟩]
    · rw [writeTable_cell_colgt cols records _ (h + 1) r c h5]
      simp only [clearWindow]
      rw [if_pos ⟨h1, h2, h3, h4⟩]
  · intro r c hout
    have hcl : (clearWindow ws (h + 1) (h + 1 + records.length + 9)).cell
        r c = ws.cell r c := by
      simp only [clearWindow]
      rw [if_neg (by rcases hout with h6 | h6 <;> intro hc <;> omega)]
    rcases hout with h6 | h6
    · rw [writeTable_cell_lt cols records _ (h + 1) r c h6, hcl]
    · rw [writeTable_cell_ge cols records _ (h + 1) r c (by omega), hcl]

/-- Instantiation of C7 on the scenario sheet: one Frosthold record written
at row 3, the stale Lost value at row 5 cleared by the margin, and row 14
(the first row past the 10-row margin) untouched. -/
theorem positionalWriteBack_spec_witness :
    ∃ W, positionalWriteBack terrSheet "RegionName"
        ["RegionName", "TerritoryState"]
        [[Cell.str "Frosthold", Cell.str "Held"]] = some W ∧
      W.cell 3 2 = Cell.str "Held" ∧
      W.cell 5 2 = Cell.none ∧
      W.cell 14 2 = terrSheet.cell 14 2 := by
  obtain ⟨W, hW, h1, h2, h3⟩ := positionalWriteBack_spec terrSheet
    "RegionName" ["RegionName", "TerritoryState"]
    [[Cell.str "Frosthold", Cell.str "Held"]] 2 (by decide)
  refine ⟨W, hW, ?_, ?_, ?_⟩
  · have := h1 0 1 (by decide) (by decide)
    simpa using this
  · exact h2 5 2 (by omega) (by simp) (by omega) (by decide)
      (Or.inl (by simp))
  · exact h3 14 2 (Or.inr (by simp))

end WarDash
